import Mathlib

/-!
# Verification of the aiotnb validation/transform engine and paged cursors

Shallow embedding of:
* `aiotnb/validation.py` — the `Validator` hierarchy (`Ignore`, `Const`, `Fn`,
  `Type`, `Maybe`, `As`, `Schema`) and the process-wide `ArgsManager`;
* `aiotnb/common.py` + `aiotnb/iter.py` — the `PaginatedResponse` cursor built
  on `_PaginatedIterator` (queue-buffered, page-granularity limit);
* `aiotnb/models/__init__.py` — the second `PaginatedResponse` cursor
  (list-buffered, per-item limit accounting).

Python values are embedded as `PyVal`; machine behaviour (truthiness, `==`
semantics including `bool`/`int` unification, iteration, `*`/`**` unpacking,
exceptions) is modelled explicitly.  Exceptions are `Except` errors; where the
original code mutates object state before raising, the error branch carries the
mutated state.
-/

set_option maxHeartbeats 1000000

/-- Embedded Python runtime types. `typeT` is the metaclass `type` (the type of
every class object). The universe is restricted to the types the library's
schemas and tests actually traffic in. -/
inductive PyType : Type where
  | noneT
  | boolT
  | intT
  | strT
  | listT
  | dictT
  | typeT
  deriving DecidableEq, Repr

/-- Embedded Python values.  Dicts are string-keyed association lists in
insertion order (all schema keys in the source are strings).  `cls t` is the
class object for `t` (classes are first-class values in Python).  Tuples,
sets and frozensets are modelled by `list` (the source treats
`list/tuple/set/frozenset` uniformly in `_priority`). -/
inductive PyVal : Type where
  | none
  | bool (b : Bool)
  | int (n : Int)
  | str (s : String)
  | list (xs : List PyVal)
  | dict (kvs : List (String × PyVal))
  | cls (t : PyType)

/-- `type(v)` for an embedded value. -/
def typeOf : PyVal → PyType
  | .none => .noneT
  | .bool _ => .boolT
  | .int _ => .intT
  | .str _ => .strT
  | .list _ => .listT
  | .dict _ => .dictT
  | .cls _ => .typeT

/-- `isinstance(v, t)`: type equality plus Python's `bool <: int` subclassing. -/
def pyIsInstance (v : PyVal) (t : PyType) : Bool :=
  typeOf v == t || (t == PyType.intT && typeOf v == PyType.boolT)

/-- Python truthiness (`bool(v)`). -/
def pyTruthy : PyVal → Bool
  | .none => false
  | .bool b => b
  | .int n => n != 0
  | .str s => s != ""
  | .list xs => !xs.isEmpty
  | .dict kvs => !kvs.isEmpty
  | .cls _ => true

/-- First-match lookup in a string-keyed association list (`k in d` / `d[k]`). -/
def lookupStr (k : String) : List (String × PyVal) → Option PyVal
  | [] => Option.none
  | (k', v) :: rest => if k' == k then some v else lookupStr k rest

mutual

/-- Python `==` on embedded values.  `True == 1` and `False == 0` hold
(`bool` is an `int` subclass); dict equality ignores insertion order. -/
def pyEq : PyVal → PyVal → Bool
  | .none, .none => true
  | .bool a, .bool b => a == b
  | .bool a, .int b => (if a then (1 : Int) else 0) == b
  | .int a, .bool b => a == (if b then (1 : Int) else 0)
  | .int a, .int b => a == b
  | .str a, .str b => a == b
  | .list a, .list b => pyEqList a b
  | .dict a, .dict b => a.length == b.length && pyEqSub a b
  | .cls a, .cls b => a == b
  | _, _ => false
termination_by a b => sizeOf a + sizeOf b
decreasing_by all_goals (simp_wf; try omega)

/-- Element-wise list equality. -/
def pyEqList : List PyVal → List PyVal → Bool
  | [], [] => true
  | a :: as', b :: bs => pyEq a b && pyEqList as' bs
  | _, _ => false
termination_by a b => sizeOf a + sizeOf b
decreasing_by all_goals (simp_wf; try omega)

/-- Every entry of the first dict has an equal entry in the second. -/
def pyEqSub : List (String × PyVal) → List (String × PyVal) → Bool
  | [], _ => true
  | (k, v) :: rest, b => pyEqFind k v b && pyEqSub rest b
termination_by a b => sizeOf a + sizeOf b
decreasing_by all_goals (simp_wf; try omega)

/-- Scan for key `k` in a dict and compare its value to `v`. -/
def pyEqFind : String → PyVal → List (String × PyVal) → Bool
  | _, _, [] => false
  | k, v, (k', w) :: rest => if k' == k then pyEq v w else pyEqFind k v rest
termination_by _ v b => sizeOf v + sizeOf b
decreasing_by all_goals (simp_wf; try omega)

end

/-- `_priority(item)` from `validation.py` applied to a data value:
`IGNORE, VALUE, CALLABLE, VALIDATOR, TYPE, DICT, ITER = range(7)`.
No embedded data value is a `Validator`, a callable or `Ellipsis`,
so only `ITER` (6), `DICT` (5), `TYPE` (4) and `VALUE` (1) occur. -/
def pyPriority : PyVal → Nat
  | .list _ => 6
  | .dict _ => 5
  | .cls _ => 4
  | _ => 1

/-- Embedded Python exception kinds relevant to the claims. -/
inductive PyErr : Type where
  | vte          -- ValidatorTransformError (subclass of ValidatorException)
  | validatorFailed
  | typeError    -- built-in TypeError
  | keyError     -- built-in KeyError
  | indexError   -- built-in IndexError
  deriving DecidableEq, Repr

/-! ## ArgsManager (`validation.py`, lines 54-89)

The process-wide registry of ambient constructor arguments.  Python class
attributes `types` (a dict keyed by the transformer object) and `tmp` (a
stack of transformer keys) are embedded as one state record; transformer
identity is a `Nat` key.  Note `clear_type` assigns `types[t] = None` rather
than deleting the key. -/

/-- One registered entry: `dict(args=args, kwargs=kwargs)`. -/
structure AMEntry : Type where
  args : List PyVal
  kwargs : List (String × PyVal)

/-- Dict assignment `d[t] = e`: overwrite in place or append (insertion order). -/
def amSet (t : Nat) (e : Option AMEntry) : List (Nat × Option AMEntry) → List (Nat × Option AMEntry)
  | [] => [(t, e)]
  | (t', e') :: rest => if t' == t then (t, e) :: rest else (t', e') :: amSet t e rest

/-- Dict lookup: `some v` when the key is present (`v` itself may be `none`,
mirroring `types[t] = None`). -/
def amGet (t : Nat) : List (Nat × Option AMEntry) → Option (Option AMEntry)
  | [] => Option.none
  | (t', e') :: rest => if t' == t then some e' else amGet t rest

/-- `ArgsManager` class state: `types` dict and `tmp` stack. -/
structure AMState : Type where
  types : List (Nat × Option AMEntry)
  tmp : List Nat

/-- The pristine registry (`types = {}`, `tmp = []`). -/
def amEmpty : AMState := ⟨[], []⟩

/-- `ArgsManager.register_type(t, *args, **kwargs)`. -/
def AMState.registerType (st : AMState) (t : Nat) (e : AMEntry) : AMState :=
  { st with types := amSet t (some e) st.types }

/-- `ArgsManager.has_type(t)`: `t in cls.types` — true even when the stored
value is `None`. -/
def AMState.hasType (st : AMState) (t : Nat) : Bool :=
  (amGet t st.types).isSome

/-- `ArgsManager.get_args(t)`: `cls.types[t]["args"], cls.types[t]["kwargs"]`.
A missing key raises `KeyError`; a key cleared to `None` raises `TypeError`
(`None` is not subscriptable). -/
def AMState.getArgs (st : AMState) (t : Nat) : Except PyErr AMEntry :=
  match amGet t st.types with
  | Option.none => .error .keyError
  | some Option.none => .error .typeError
  | some (some e) => .ok e

/-- `ArgsManager.clear_type(t)`: `cls.types[t] = None` (the key stays). -/
def AMState.clearType (st : AMState) (t : Nat) : AMState :=
  { st with types := amSet t Option.none st.types }

/-- `ArgsManager.temp(t, *args, **kwargs)`: push `t` on `tmp` and register. -/
def AMState.temp (st : AMState) (t : Nat) (e : AMEntry) : AMState :=
  (({ st with tmp := st.tmp ++ [t] }) : AMState).registerType t e

/-- `ArgsManager.__exit__`: `tmp.pop()` then `clear_type` on the popped key.
`pop` on an empty list raises `IndexError`. -/
def AMState.scopeExit (st : AMState) : Except PyErr AMState :=
  match st.tmp.getLast? with
  | some t => .ok (AMState.clearType { st with tmp := st.tmp.dropLast } t)
  | Option.none => .error .indexError

/-! ## The resolved spec tree

`Schema(raw).resolve()` maps a raw specification to a tree of `Validator`
objects: `Ellipsis ↦ Ignore` (resolve returns the Schema itself, whose
validate/transform IGNORE branches apply), scalars ↦ `Const`, callables ↦
`Fn`, classes ↦ `Type` (with default `strict=False`), existing validators
delegate, dicts and lists recurse.  `SpecV` is that resolved tree.

Two source details let the embedding drop the key-sorting machinery: the
sorts in `resolve`, `validate` and `transform` are
`sorted(validator, key=_priority_by_key)` over the *keys* of the spec dict,
all of which are strings in this library, and `_priority` of every string is
`VALUE`; Python's sort is stable, so both the ascending and the descending
(`reverse=True`) sorts leave the insertion order unchanged. -/

/-- A transformer argument of `As`: a callable, a non-callable object with a
`transform` method, or neither.  `cid` is the object's identity, the key used
by `ArgsManager`.  The call receives positional arguments and keyword
arguments and either returns a value or raises. -/
structure PyCallable : Type where
  cid : Nat
  call : List PyVal → List (String × PyVal) → Except PyErr PyVal

/-- The three shapes `As.transform` distinguishes for `self.transformer`. -/
inductive PyTransformer : Type where
  | callable (c : PyCallable)
  | withTransform (c : PyCallable)
  | neither (cid : Nat)

/-- Identity key of a transformer (for `ArgsManager`). -/
def PyTransformer.tid : PyTransformer → Nat
  | .callable c => c.cid
  | .withTransform c => c.cid
  | .neither n => n

/-- Resolved spec tree (see the section comment). `sdict` carries the
`ignore_extra_keys` kwarg of the enclosing `Schema`; `asv` carries the
`unpack_args` kwarg of `As` (default `True`). -/
inductive SpecV : Type where
  | ignore
  | const (c : PyVal)
  | fnv (f : PyVal → Except PyErr PyVal)
  | typ (t : PyType) (strict : Bool)
  | maybe (inner : SpecV)
  | asv (inner : SpecV) (tf : PyTransformer) (unpackArgs : Bool)
  | sdict (fields : List (String × SpecV)) (ignoreExtra : Bool)
  | siter (elems : List SpecV)

/-- `Type.transform`'s validity test.  In strict mode the source compares
`type(data) == type(self.validator)`; `self.validator` is the class `t`, so
`type(self.validator)` is the metaclass `type` — the comparison holds exactly
when the data is itself a class object, never when it is an instance of `t`.
Non-strict mode is `isinstance(data, t)`. -/
def typeCheckValid (t : PyType) (strict : Bool) (d : PyVal) : Bool :=
  if strict then typeOf d == PyType.typeT
  else pyIsInstance d t

/-- Iterable unpacking `*v` (used by `As.transform` for the ITER call):
lists yield their elements, strings their characters, dicts their keys;
everything else raises `TypeError`. -/
def pyStar : PyVal → Except PyErr (List PyVal)
  | .list xs => .ok xs
  | .str s => .ok (s.toList.map fun ch => .str (String.mk [ch]))
  | .dict kvs => .ok (kvs.map fun kv => .str kv.1)
  | _ => .error .typeError

/-- Keys of two keyword-argument dicts intersect (a duplicate keyword in
`f(**a, **b)` raises `TypeError`). -/
def kwCollision (a b : List (String × PyVal)) : Bool :=
  a.any fun kv => b.any fun kv' => kv.1 == kv'.1

/-- `self.transformer(*args, **new_data, **kwargs)`: duplicate keywords raise,
otherwise the callable receives `args` positionally and the merged keywords. -/
def pyCallKw (c : PyCallable) (args : List PyVal) (newData kwargs : List (String × PyVal)) :
    Except PyErr PyVal :=
  if kwCollision newData kwargs then .error .typeError
  else c.call args (newData ++ kwargs)

/-- The body of the `try` block of `As.transform` for a callable (or
`transform`-method) transformer `c`, given `unpack_params`, the `_priority`
of the *original* data, the already-converted `new_data`, and the ambient
`args`/`kwargs`.  `result` starts as `None`; the DICT branch unpacks
`new_data` as keywords, the ITER branch positionally; if `result` is falsy
the converted value is passed as a single positional argument. -/
def asCallPhase (c : PyCallable) (unpackArgs : Bool) (dataPrio : Nat) (newData : PyVal)
    (args : List PyVal) (kwargs : List (String × PyVal)) : Except PyErr PyVal :=
  let step1 : Except PyErr PyVal :=
    if unpackArgs then
      if dataPrio == 5 then
        match newData with
        | .dict kvs => pyCallKw c args kvs kwargs
        | _ => .error .typeError
      else if dataPrio == 6 then
        match pyStar newData with
        | .ok els => c.call (els ++ args) kwargs
        | .error e => .error e
      else .ok .none
    else .ok .none
  match step1 with
  | .error e => .error e
  | .ok r1 => if pyTruthy r1 then .ok r1 else c.call (newData :: args) kwargs

/-! ## `Schema.validate` (`validation.py`, lines 367-438)

`svalidate` embeds the dispatch of `Schema.validate` over a resolved tree
together with the `validate` methods of the `Validator` subclasses.  The
return type is `Except PyErr Bool`: validation normally returns a boolean but
can itself raise (e.g. an ITER spec applied to non-iterable data).

Source details embedded here:
* `Fn.validate` / `Type.validate` run `transform` and catch
  `ValidatorException`; since `transform` wraps every failure in
  `ValidatorTransformError` (a `ValidatorException`), they reduce to a
  boolean on the transform's success.
* DICT branch: for each spec key *present* in the data the sub-validator
  runs (first `False` short-circuits); **absent keys are skipped but are
  still added to `visited_keys`**, so the final
  `if visited_keys != set(keys): return False` check never fires.
* ITER branch: `all(type(data)(gen))`.  For list data, `list(gen)` evaluates
  every element (errors propagate), then `all`.  For string data, `str(gen)`
  is the generator's repr — the generator is never consumed and the non-empty
  repr makes `all` true.  For dict data, the generator is consumed item by
  item by `dict(...)`, which raises `TypeError` on the first boolean item
  (an empty dict yields `{}`, and `all({})` is true).  Other data types make
  `type(data)(gen)` raise `TypeError`. -/

mutual

/-- `Schema.validate` over a resolved tree (with the subclasses' `validate`). -/
def svalidate : SpecV → PyVal → Except PyErr Bool
  | .ignore, _ => .ok true
  | .const c, d => .ok (pyEq d c)
  | .fnv f, d =>
      match f d with
      | .ok _ => .ok true
      | .error _ => .ok false
  | .typ t strict, d => .ok (typeCheckValid t strict d)
  | .maybe inner, d =>
      match d with
      | .none => .ok true
      | _ => svalidate inner d
  | .asv inner _ _, d => svalidate inner d
  | .sdict fields _, d =>
      match d with
      | .dict kvs => svalFields fields kvs
      | _ => .ok false
  | .siter [e], d =>
      match d with
      | .list xs =>
          (match svalList e xs with
           | .ok bs => .ok (bs.all id)
           | .error er => .error er)
      | .str _ => .ok true
      | .dict kvs => svalFirstKey e kvs
      | _ => .error .typeError
  | .siter es, d =>
      match d with
      | .list xs =>
          (match svalZip es xs with
           | .ok bs => .ok (bs.all id)
           | .error er => .error er)
      | .str _ => .ok true
      | .dict kvs => svalFirstZip es kvs
      | _ => .error .typeError
termination_by s _ => (sizeOf s, 0)
decreasing_by all_goals (simp_wf; try omega)

/-- The DICT loop of `Schema.validate`: `for key in keys: if key in data: ...`.
Returns `.ok true` at the end of the loop — `visited_keys` equals `set(keys)`
on every path, so the trailing inequality check is dead code. -/
def svalFields : List (String × SpecV) → List (String × PyVal) → Except PyErr Bool
  | [], _ => .ok true
  | (k, sv) :: rest, kvs =>
      match lookupStr k kvs with
      | some v =>
          (match svalidate sv v with
           | .ok true => svalFields rest kvs
           | .ok false => .ok false
           | .error er => .error er)
      | Option.none => svalFields rest kvs
termination_by fields _ => (sizeOf fields, 0)
decreasing_by all_goals (simp_wf; try omega)

/-- `list(inner.validate(x) for x in data)` — homogeneous ITER branch. -/
def svalList (e : SpecV) : List PyVal → Except PyErr (List Bool)
  | [] => .ok []
  | x :: xs =>
      match svalidate e x with
      | .ok b =>
          (match svalList e xs with
           | .ok bs => .ok (b :: bs)
           | .error er => .error er)
      | .error er => .error er
termination_by xs => (sizeOf e, sizeOf xs + 1)
decreasing_by all_goals (simp_wf; try omega)

/-- `list(v.validate(d) for v, d in zip(validator, data))` — heterogeneous
ITER branch (`zip` truncates to the shorter side). -/
def svalZip : List SpecV → List PyVal → Except PyErr (List Bool)
  | [], _ => .ok []
  | _, [] => .ok []
  | e :: es, x :: xs =>
      match svalidate e x with
      | .ok b =>
          (match svalZip es xs with
           | .ok bs => .ok (b :: bs)
           | .error er => .error er)
      | .error er => .error er
termination_by es xs => (sizeOf es, sizeOf xs + 1)
decreasing_by all_goals (simp_wf; try omega)

/-- Homogeneous ITER spec against dict data: `dict(gen)` consumes the first
generated boolean and raises `TypeError`; for an empty dict, `dict(gen)` is
`{}` and `all({})` is `True`. -/
def svalFirstKey (e : SpecV) : List (String × PyVal) → Except PyErr Bool
  | [] => .ok true
  | (k, _) :: _ =>
      match svalidate e (.str k) with
      | .ok _ => .error .typeError
      | .error er => .error er
termination_by kvs => (sizeOf e, sizeOf kvs + 1)
decreasing_by all_goals (simp_wf; try omega)

/-- Heterogeneous ITER spec against dict data: same as `svalFirstKey` with
the first validator of the zip. -/
def svalFirstZip : List SpecV → List (String × PyVal) → Except PyErr Bool
  | [], _ => .ok true
  | _, [] => .ok true
  | e :: _, (k, _) :: _ =>
      match svalidate e (.str k) with
      | .ok _ => .error .typeError
      | .error er => .error er
termination_by es kvs => (sizeOf es, sizeOf kvs + 1)
decreasing_by all_goals (simp_wf; try omega)

end

/-! ## `Schema.transform` (`validation.py`, lines 440-518) and `As.transform`
(lines 222-265)

`stransform` takes the `ArgsManager` state as a read-only parameter:
`As.transform` reads the registry (`has_type` / `get_args`) but transforms
never write it (writes happen only via `ArgsManager.temp(...)` scopes around
whole `transform` calls, in the paginators).

Source details embedded here:
* `As.transform`: `new_data = self.validator.transform(data)` and the
  `ArgsManager` lookup both run *before* the `try` block, so their
  exceptions propagate unwrapped (`get_args` on a cleared slot raises a bare
  `TypeError`).  Inside the `try`, the unpack mode is chosen by
  `_priority(data)` — the priority of the *original* data, not of
  `new_data` — and every exception is re-raised as
  `ValidatorTransformError`.  The `neither` case raises the same error.
* DICT branch of `Schema.transform`: iterate the spec keys; a key missing
  from the data raises (`missing required key`); afterwards
  `visited_keys = set(keys)` and `required_keys = set(keys)`, except that
  `ignore_extra_keys` *adds the data keys to* `required_keys`, so extra data
  keys raise `missing keys in validator` exactly when the flag is set and
  are silently dropped when it is not.  The `visited_keys > required_keys`
  branch (a bare `print`) is unreachable since `visited ⊆ required`.
* ITER branch on dict data: `dict(transformed-items generator)` — the first
  transformed value is produced, then `dict()` rejects it with `TypeError`
  (values in this embedding's string-keyed universe are not key/value
  pairs); an empty dict gives `{}`.
* ITER branch on string data: `str(gen)` is the generator's repr; the
  placeholder below stands for that non-empty repr string (its memory
  address varies run to run; only its truthiness is ever observable). -/

mutual

/-- `Schema.transform` over a resolved tree (with the subclasses'
`transform`), with read-only `ArgsManager` state `am`. -/
def stransform (am : AMState) : SpecV → PyVal → Except PyErr PyVal
  | .ignore, d => .ok d
  | .const c, d => if pyEq d c then .ok d else .error .vte
  | .fnv f, d =>
      match f d with
      | .ok v => .ok v
      | .error _ => .error .vte
  | .typ t strict, d => if typeCheckValid t strict d then .ok d else .error .vte
  | .maybe inner, d =>
      match d with
      | .none => .ok .none
      | _ => stransform am inner d
  | .asv inner tf unpackArgs, d =>
      match stransform am inner d with
      | .error er => .error er
      | .ok newData =>
          match (if am.hasType tf.tid then am.getArgs tf.tid else .ok ⟨[], []⟩) with
          | .error er => .error er
          | .ok entry =>
              match tf with
              | .callable c =>
                  (match asCallPhase c unpackArgs (pyPriority d) newData entry.args entry.kwargs with
                   | .ok r => .ok r
                   | .error _ => .error .vte)
              | .withTransform c =>
                  (match asCallPhase c unpackArgs (pyPriority d) newData entry.args entry.kwargs with
                   | .ok r => .ok r
                   | .error _ => .error .vte)
              | .neither _ => .error .vte
  | .sdict fields ignoreExtra, d =>
      match d with
      | .dict kvs =>
          (match stransFields am fields kvs with
           | .error er => .error er
           | .ok new =>
               if ignoreExtra
                  && kvs.any (fun kv => !(fields.map Prod.fst).contains kv.1) then
                 .error .vte
               else .ok (.dict new))
      | _ => .error .vte
  | .siter [e], d =>
      match d with
      | .list xs =>
          (match stransList am e xs with
           | .ok ys => .ok (.list ys)
           | .error er => .error er)
      | .str _ => .ok (.str "<generator object>")
      | .dict kvs => stransFirstKey am e kvs
      | _ => .error .typeError
  | .siter es, d =>
      match d with
      | .list xs =>
          (match stransZip am es xs with
           | .ok ys => .ok (.list ys)
           | .error er => .error er)
      | .str _ => .ok (.str "<generator object>")
      | .dict kvs => stransFirstZip am es kvs
      | _ => .error .typeError
termination_by s _ => (sizeOf s, 0)
decreasing_by all_goals (simp_wf; try omega)

/-- The DICT loop of `Schema.transform`: missing keys raise, present keys are
transformed in key order into the output dict. -/
def stransFields (am : AMState) :
    List (String × SpecV) → List (String × PyVal) → Except PyErr (List (String × PyVal))
  | [], _ => .ok []
  | (k, sv) :: rest, kvs =>
      match lookupStr k kvs with
      | some v =>
          (match stransform am sv v with
           | .ok w =>
               (match stransFields am rest kvs with
                | .ok tail => .ok ((k, w) :: tail)
                | .error er => .error er)
           | .error er => .error er)
      | Option.none => .error .vte
termination_by fields _ => (sizeOf fields, 0)
decreasing_by all_goals (simp_wf; try omega)

/-- `list(inner.transform(x) for x in data)` — homogeneous ITER branch. -/
def stransList (am : AMState) (e : SpecV) : List PyVal → Except PyErr (List PyVal)
  | [] => .ok []
  | x :: xs =>
      match stransform am e x with
      | .ok y =>
          (match stransList am e xs with
           | .ok ys => .ok (y :: ys)
           | .error er => .error er)
      | .error er => .error er
termination_by xs => (sizeOf e, sizeOf xs + 1)
decreasing_by all_goals (simp_wf; try omega)

/-- `list(v.transform(d) for v, d in zip(validator, data))` — heterogeneous
ITER branch. -/
def stransZip (am : AMState) : List SpecV → List PyVal → Except PyErr (List PyVal)
  | [], _ => .ok []
  | _, [] => .ok []
  | e :: es, x :: xs =>
      match stransform am e x with
      | .ok y =>
          (match stransZip am es xs with
           | .ok ys => .ok (y :: ys)
           | .error er => .error er)
      | .error er => .error er
termination_by es xs => (sizeOf es, sizeOf xs + 1)
decreasing_by all_goals (simp_wf; try omega)

/-- Homogeneous ITER spec transform against dict data (see section comment). -/
def stransFirstKey (am : AMState) (e : SpecV) : List (String × PyVal) → Except PyErr PyVal
  | [] => .ok (.dict [])
  | (k, _) :: _ =>
      match stransform am e (.str k) with
      | .ok _ => .error .typeError
      | .error er => .error er
termination_by kvs => (sizeOf e, sizeOf kvs + 1)
decreasing_by all_goals (simp_wf; try omega)

/-- Heterogeneous ITER spec transform against dict data. -/
def stransFirstZip (am : AMState) : List SpecV → List (String × PyVal) → Except PyErr PyVal
  | [], _ => .ok (.dict [])
  | _, [] => .ok (.dict [])
  | e :: _, (k, _) :: _ =>
      match stransform am e (.str k) with
      | .ok _ => .error .typeError
      | .error er => .error er
termination_by es kvs => (sizeOf es, sizeOf kvs + 1)
decreasing_by all_goals (simp_wf; try omega)

end

/-- Module-level `transform(schema, data)` (`validation.py`, lines 29-35):
validate first, raise `ValidatorFailed` on `False`, then transform. -/
def topTransform (am : AMState) (s : SpecV) (d : PyVal) : Except PyErr PyVal :=
  match svalidate s d with
  | .error er => .error er
  | .ok false => .error .validatorFailed
  | .ok true => stransform am s d

/-! ## Paged cursor A: `common.PaginatedResponse` + `_PaginatedIterator.next`
(`common.py` lines 626-695, `iter.py` lines 40-57)

The HTTP request (`self._state.client.request`) composed with the
`PAGINATOR_BASE` envelope transform (`{count: int, next: Maybe(Url),
previous: Maybe(Url), results: ...}` — leaf specs whose successful transform
yields exactly a count, two optional URLs and the raw results list) is
abstracted as an external fetch function `Nat → Except Unit (CEnvelope ρ)`
indexed by the number of requests issued so far; a `.error` stands for a
failed fetch *or* a failed envelope decode (both occur before any state is
mutated).  `self._schema.transform(raw)` together with the
`{**parsed, **extra}` merge and `self._converter` call is the per-item
pipeline `ρ → Except Unit β`.  The `asyncio.Queue` is a FIFO list.

Because Python attribute mutations persist when a later statement raises,
every step function returns `Except (CErr × State) (... × State)`: the error
branch carries the object state at the moment the exception propagated. -/

/-- A URL, reduced to its query multimap (the only part the cursors read). -/
structure MUrl : Type where
  query : List (String × Int)
  deriving DecidableEq, Repr

/-- A decoded page envelope. -/
structure CEnvelope (ρ : Type) : Type where
  count : Int
  nextL : Option MUrl
  prevL : Option MUrl
  results : List ρ
  deriving Repr

/-- State of `common.PaginatedResponse`: `_url`, `_params`,
`_per_page_limit` (read once from `params.get("limit", 100)`), `limit`,
`received` (never updated by `_next_page`), the `_page` queue, and the
number of requests issued so far (standing for the HTTP session). -/
structure CState (ρ β : Type) : Type where
  url : MUrl
  params : List (String × Int)
  perPageLimit : Int
  limit : Option Int
  received : Nat
  queue : List β
  fetchIdx : Nat
  deriving Repr

/-- Error kinds observable through cursor A. -/
inductive CErr : Type where
  | fetchErr   -- the request or the envelope decode raised
  | itemErr    -- a per-item transform/convert raised
  | emptyErr   -- IteratorEmpty
  deriving DecidableEq, Repr

/-- `pull_limit` computation at the top of `_next_page`. -/
def cPullLimit {ρ β : Type} (st : CState ρ β) : Int :=
  match st.limit with
  | Option.none => st.perPageLimit
  | some l => if l > st.perPageLimit then st.perPageLimit else l

/-- The result loop of `_next_page`: each raw item is decoded and enqueued in
order; the first failing item leaves the already-enqueued items in place and
propagates. -/
def cPutLoop {ρ β : Type} (itemTf : ρ → Except Unit β) :
    CState ρ β → List ρ → Except (CErr × CState ρ β) (CState ρ β)
  | st, [] => .ok st
  | st, r :: rs =>
      match itemTf r with
      | .ok b => cPutLoop itemTf { st with queue := st.queue ++ [b] } rs
      | .error _ => .error (.itemErr, st)

/-- `PaginatedResponse._next_page` (`common.py` lines 670-695). -/
def cNextPage {ρ β : Type} (fetchEnv : Nat → Except Unit (CEnvelope ρ))
    (itemTf : ρ → Except Unit β) (st : CState ρ β) :
    Except (CErr × CState ρ β) (CState ρ β) :=
  if cPullLimit st > 0 then
    match fetchEnv st.fetchIdx with
    | .error _ => .error (.fetchErr, st)
    | .ok env =>
        let st0 : CState ρ β := { st with fetchIdx := st.fetchIdx + 1 }
        let st1 : CState ρ β :=
          match env.nextL with
          | some u => { st0 with url := u, params := u.query }
          | Option.none => { st0 with limit := some 0 }
        let st2 : CState ρ β :=
          if (env.results.length : Int) < st1.perPageLimit then
            { st1 with limit := some 0 }
          else
            match st1.limit with
            | some l => { st1 with limit := some (l - env.results.length) }
            | Option.none => st1
        cPutLoop itemTf st2 env.results
  else .ok st

/-- `_PaginatedIterator.next` (`iter.py` lines 49-56): refill on empty queue,
then `get_nowait` or `IteratorEmpty`. -/
def cNext {ρ β : Type} (fetchEnv : Nat → Except Unit (CEnvelope ρ))
    (itemTf : ρ → Except Unit β) (st : CState ρ β) :
    Except (CErr × CState ρ β) (β × CState ρ β) :=
  match st.queue with
  | b :: rest => .ok (b, { st with queue := rest })
  | [] =>
      match cNextPage fetchEnv itemTf st with
      | .error e => .error e
      | .ok st' =>
          match st'.queue with
          | b :: rest => .ok (b, { st' with queue := rest })
          | [] => .error (.emptyErr, st')

/-- Run `j` successive `next()` calls against cursor A, collecting the yielded
items, the number of empty/error signals, and the final state (the caller
keeps calling past `IteratorEmpty`, whose carried state is unchanged). -/
def cNextRun {ρ β : Type} (fetchEnv : Nat → Except Unit (CEnvelope ρ))
    (itemTf : ρ → Except Unit β) : Nat → CState ρ β → List β × Nat × CState ρ β
  | 0, st => ([], 0, st)
  | j + 1, st =>
      match cNext fetchEnv itemTf st with
      | .ok (b, st') =>
          (fun t => (b :: t.1, t.2.1, t.2.2)) (cNextRun fetchEnv itemTf j st')
      | .error (_, st') =>
          (fun t => (t.1, t.2.1 + 1, t.2.2)) (cNextRun fetchEnv itemTf j st')

/-! ## Paged cursor B: `models.PaginatedResponse.next`
(`models/__init__.py` lines 188-260)

The request plus the engine decode
(`with ArgsManager.temp(type_, **extra): transform(self.schema, data)`,
where the schema is the PAGINATOR_BASE envelope whose `results` field is
`[As(result_schema, type_)]`) is abstracted as a total fetch-and-decode
function `serve : Nat → MEnvelope α` indexed by the number of requests
issued.  The per-item truthiness test (`if tmp:` on the value returned by
the inner `check()`) is a parameter `truthy : α → Bool`.

`self._count` is assigned `len(self._data)` at every site, so it is stored
as `data.length`; `self._current` only reaches non-negative values through
`next()` (only `previous()` can drive it negative), so it is a `Nat`. -/

/-- A decoded envelope for cursor B (post-transform). -/
structure MEnvelope (α : Type) : Type where
  count : Int
  nextL : Option MUrl
  prevL : Option MUrl
  results : List α
  deriving Repr

/-- Error kinds observable through cursor B's `next`. -/
inductive MErr : Type where
  | empty      -- IteratorEmpty
  | keyError   -- self._next.query["offset"] with no offset parameter
  deriving DecidableEq, Repr

/-- State of `models.PaginatedResponse` (the fields `next()` touches). -/
structure MState (α : Type) : Type where
  limit : Nat                            -- kwargs.pop("limit", 0); 0 = unlimited
  numRecords : Nat                       -- self._num_records
  current : Nat                          -- self._current
  total : Int                            -- self._total
  nextL : Option MUrl                    -- self._next
  prevL : Option MUrl                    -- self._previous
  data : List α                          -- self._data (count = data.length)
  offset : Int                           -- self._offset
  params : Option (List (String × Int))  -- self._params (None once consumed)
  fetchIdx : Nat
  deriving Repr

/-- The inner `check()` closure of `next()`: if an item is available at
`_current`, consume it (advancing `_current` and `_num_records`) and return
it, else return `None`.  Both counters advance even when the item itself is
falsy — the caller's `if tmp:` then discards it. -/
def mcheck {α : Type} (st : MState α) : Option α × MState α :=
  if h : st.current < st.data.length then
    (some (st.data.get ⟨st.current, h⟩),
     { st with current := st.current + 1, numRecords := st.numRecords + 1 })
  else (Option.none, st)

/-- First-match lookup in a query multimap (`url.query["offset"]`). -/
def lookupQ (k : String) : List (String × Int) → Option Int
  | [] => Option.none
  | (k', v) :: rest => if k' == k then some v else lookupQ k rest

/-- The `_params` consumption at the top of the fetch branch of
`models.PaginatedResponse.next`: a truthy (non-empty) params dict is handed
to the request and replaced by `None`; a falsy one (`None` or `{}`) is left
alone and only the offset is sent. -/
def mparamsStep {α : Type} (st : MState α) : MState α :=
  match st.params with
  | some l => if l.isEmpty then st else { st with params := Option.none }
  | Option.none => st

/-- The fetch branch of `models.PaginatedResponse.next` (lines 232-254)
after the `_params` consumption: issue the request, decode, overwrite the
cursor fields, recompute `_offset` from the new next link (`KeyError` if the
link carries no `offset` parameter — the field overwrites persist), and
re-run `check()`, signalling `IteratorEmpty` if it produces nothing truthy. -/
def mfetchCore {α : Type} (serve : Nat → MEnvelope α) (truthy : α → Bool) (st0 : MState α) :
    Except (MErr × MState α) (α × MState α) :=
  let env := serve st0.fetchIdx
  let st1 : MState α :=
    { st0 with
      fetchIdx := st0.fetchIdx + 1
      current := 0
      total := env.count
      nextL := env.nextL
      prevL := env.prevL
      data := env.results }
  let withOffset : Except (MErr × MState α) (MState α) :=
    match env.nextL with
    | some u =>
        (match lookupQ "offset" u.query with
         | some off => .ok { st1 with offset := off }
         | Option.none => .error (.keyError, st1))
    | Option.none => .ok { st1 with offset := 0 }
  match withOffset with
  | .error e => .error e
  | .ok st2 =>
      match mcheck st2 with
      | (some d, st3) =>
          if truthy d then .ok (d, st3) else .error (.empty, st3)
      | (Option.none, st3) => .error (.empty, st3)

/-- The whole fetch branch: `_params` consumption, then the fetch-and-refill. -/
def mfetch {α : Type} (serve : Nat → MEnvelope α) (truthy : α → Bool) (st : MState α) :
    Except (MErr × MState α) (α × MState α) :=
  mfetchCore serve truthy (mparamsStep st)

/-- `models.PaginatedResponse.next` (lines 217-260).  The guard is
`(self._next is None and self._current >= self._count) or
(self.limit != 0 and self._num_records == self.limit)`. -/
def mnext {α : Type} (serve : Nat → MEnvelope α) (truthy : α → Bool) (st : MState α) :
    Except (MErr × MState α) (α × MState α) :=
  if (st.nextL.isNone && decide (st.data.length ≤ st.current))
      || (st.limit != 0 && st.numRecords == st.limit) then
    .error (.empty, st)
  else
    match mcheck st with
    | (some d, st1) =>
        if truthy d then .ok (d, st1) else mfetch serve truthy st1
    | (Option.none, st1) => mfetch serve truthy st1

/-- Run `k` successive successful `next()` calls against cursor B, collecting
the yielded items; stops at the first error. -/
def mnextN {α : Type} (serve : Nat → MEnvelope α) (truthy : α → Bool) :
    Nat → MState α → Except (MErr × MState α) (List α × MState α)
  | 0, st => .ok ([], st)
  | k + 1, st =>
      match mnext serve truthy st with
      | .ok (a, st') =>
          (match mnextN serve truthy k st' with
           | .ok (l, st'') => .ok (a :: l, st'')
           | .error e => .error e)
      | .error e => .error e

/-- Initial cursor B state
(`__init__`: `limit`, `url`, `params`, zeroed counters, empty buffer). -/
def mInit {α : Type} (limit : Nat) (url0 : MUrl) (params0 : Option (List (String × Int))) :
    MState α :=
  { limit := limit, numRecords := 0, current := 0, total := 0,
    nextL := some url0, prevL := Option.none, data := [],
    offset := 0, params := params0, fetchIdx := 0 }

/-! ## The Convert-free safe fragment

`shapeOK s d` delimits the fragment on which the spec's same-shape guarantee
does hold in the source: no `As` node anywhere (a converter/constructor may
raise on validated input by design), every dict spec meets a dict datum that
contains all spec keys (the source's `validate` wrongly skips the
missing-key check), with no extra data keys when `ignore_extra_keys` is set
(the flag makes `transform` raise on extras), and every list spec meets a
list datum.  This predicate is part of the amended claim C1, not a source
function. -/

mutual

/-- Membership of a spec/data pair in the safe fragment (see above). -/
def shapeOK : SpecV → PyVal → Bool
  | .ignore, _ => true
  | .const _, _ => true
  | .fnv _, _ => true
  | .typ _ _, _ => true
  | .maybe inner, d =>
      match d with
      | .none => true
      | _ => shapeOK inner d
  | .asv _ _ _, _ => false
  | .sdict fields ex, d =>
      match d with
      | .dict kvs =>
          shapeOKFields fields kvs
            && (!ex || kvs.all fun kv => (fields.map Prod.fst).contains kv.1)
      | _ => false
  | .siter [e], d =>
      match d with
      | .list xs => shapeOKList e xs
      | _ => false
  | .siter es, d =>
      match d with
      | .list xs => shapeOKZip es xs
      | _ => false
termination_by s _ => (sizeOf s, 0)
decreasing_by all_goals (simp_wf; try omega)

/-- Every spec key is present in the data and its value is in the fragment. -/
def shapeOKFields : List (String × SpecV) → List (String × PyVal) → Bool
  | [], _ => true
  | (k, sv) :: rest, kvs =>
      (match lookupStr k kvs with
       | some v => shapeOK sv v
       | Option.none => false)
        && shapeOKFields rest kvs
termination_by fields _ => (sizeOf fields, 0)
decreasing_by all_goals (simp_wf; try omega)

/-- Homogeneous list fragment membership. -/
def shapeOKList (e : SpecV) : List PyVal → Bool
  | [] => true
  | x :: xs => shapeOK e x && shapeOKList e xs
termination_by xs => (sizeOf e, sizeOf xs + 1)
decreasing_by all_goals (simp_wf; try omega)

/-- Heterogeneous (zipped) list fragment membership. -/
def shapeOKZip : List SpecV → List PyVal → Bool
  | [], _ => true
  | _, [] => true
  | e :: es, x :: xs => shapeOK e x && shapeOKZip es xs
termination_by es xs => (sizeOf es, sizeOf xs + 1)
decreasing_by all_goals (simp_wf; try omega)

end

/-! ## Concrete fixtures used by counterexamples and witnesses -/

/-- C2 counterexample server: one page of ten items (of twenty), with a
non-null next link; any further request fails (never issued). -/
def c2fe : Nat → Except Unit (CEnvelope Nat) := fun k =>
  if k == 0 then
    .ok ⟨20, some ⟨[("offset", 10), ("limit", 10)]⟩, Option.none,
         [1, 2, 3, 4, 5, 6, 7, 8, 9, 10]⟩
  else .error ()

/-- C2 counterexample per-item pipeline: identity decode. -/
def c2it : Nat → Except Unit Nat := fun r => .ok r

/-- C2 counterexample cursor A state: fresh cursor, `params = {"limit": 10}`
(so `_per_page_limit = 10`) and a total-item limit of 5. -/
def c2st : CState Nat Nat :=
  ⟨⟨[("limit", 10)]⟩, [("limit", 10)], 10, some 5, 0, [], 0⟩

/-- C2 witness server for cursor B: every page holds ten truthy items and a
next link carrying an offset. -/
def w2serve : Nat → MEnvelope Nat := fun _ =>
  ⟨20, some ⟨[("offset", 10)]⟩, Option.none, [1, 2, 3, 4, 5, 6, 7, 8, 9, 10]⟩

/-- C2 witness truthiness on decoded items (`if tmp:` on a non-zero int). -/
def w2truthy : Nat → Bool := fun a => a != 0

/-- C3 fixtures: a fetch whose first page decodes two raw items. -/
def c3fe : Nat → Except Unit (CEnvelope Nat) := fun k =>
  if k == 0 then .ok ⟨20, some ⟨[("offset", 10)]⟩, Option.none, [1, 2]⟩
  else .error ()

/-- C3 per-item pipeline: the first raw item decodes, the second raises. -/
def c3it : Nat → Except Unit Nat := fun r => if r == 1 then .ok 11 else .error ()

/-- C3 fresh cursor A state before the failing call. -/
def c3st : CState Nat Nat :=
  ⟨⟨[("offset", 0)]⟩, [("offset", 0)], 10, Option.none, 0, [], 0⟩

/-- C3 cursor A state observed after the per-item decode failure: url,
params and limit already overwritten, first item already buffered. -/
def c3stBad : CState Nat Nat :=
  ⟨⟨[("offset", 10)]⟩, [("offset", 10)], 10, some 0, 0, [11], 1⟩

/-- C3 witness state: empty buffer, no limit, ten-per-page cursor. -/
def w3st : CState Nat Nat :=
  ⟨⟨[("offset", 0)]⟩, [("offset", 0)], 10, Option.none, 0, [], 0⟩

/-- C3 witness fetch: always fails. -/
def w3fe : Nat → Except Unit (CEnvelope Nat) := fun _ => .error ()

/-- C7 counterexample inner spec: converts any input to a mapping. -/
def c7inner : SpecV := .fnv fun _ => .ok (.dict [("a", .int 1)])

/-- C7 counterexample transformer: reports which way it was invoked. -/
def c7call : PyCallable :=
  ⟨21, fun args kwargs =>
    if kwargs.isEmpty then
      (match args with
       | [.dict _] => .ok (.str "single-positional")
       | _ => .ok (.str "other"))
    else .ok (.str "kwargs-unpacked")⟩

/-- C7 witness inner spec. -/
def c7winner : SpecV := .fnv fun _ => .ok (.dict [("w", .int 2)])

/-- C7 witness transformer. -/
def c7wcall : PyCallable := ⟨22, fun args _ => .ok (.list args)⟩

/-- C9 witness short page: three items against a page size of ten, next link
non-null. -/
def w9env : CEnvelope Nat := ⟨13, some ⟨[("offset", 10)]⟩, Option.none, [5, 6, 7]⟩

/-- C9 witness fetch: serves the short page once. -/
def w9fe : Nat → Except Unit (CEnvelope Nat) := fun k =>
  if k == 0 then .ok w9env else .error ()

/-- C9 witness per-item pipeline: identity decode. -/
def w9it : Nat → Except Unit Nat := fun r => .ok r

/-- C9 witness cursor A state: fresh, unlimited, page size ten. -/
def w9st : CState Nat Nat :=
  ⟨⟨[("offset", 0)]⟩, [("offset", 0)], 10, Option.none, 0, [], 0⟩

/-- C10 witness inner spec: converts to a fixed one-field mapping. -/
def c10inner : SpecV := .fnv fun _ => .ok (.dict [("k", .int 3)])

/-- C10 witness transformer: the keyword-unpacked call (no positional
arguments) returns falsy `0`; the single-positional retry returns a string. -/
def c10call : PyCallable :=
  ⟨31, fun args _ => if args.isEmpty then .ok (.int 0) else .ok (.str "second")⟩

/-! ## Claim theorems -/

/-- C4: against the claim that after a Context Registry scope exits a lookup
for that target reports no active entry, the code leaves a stale, unusable
entry: `clear_type` assigns `types[target] = None` without deleting the key,
so after `temp`/`__exit__` the registry still answers `has_type = True`,
`get_args` raises `TypeError`, and a subsequent `As.transform` for that
target crashes with that bare `TypeError` (the registry read happens before
its `try` block). -/
theorem claim_C4_stale_entry_after_scope_exit :
    (amEmpty.temp 7 ⟨[], [("bank_id", .str "X")]⟩).scopeExit
        = .ok ⟨[(7, Option.none)], []⟩
      ∧ AMState.hasType ⟨[(7, Option.none)], []⟩ 7 = true
      ∧ AMState.getArgs ⟨[(7, Option.none)], []⟩ 7 = .error .typeError
      ∧ stransform ⟨[(7, Option.none)], []⟩
          (.asv .ignore (.callable ⟨7, fun _ _ => .ok (.int 1)⟩) true) (.int 3)
          = .error .typeError := by
  refine ⟨rfl, rfl, rfl, ?_⟩
  simp [stransform, AMState.hasType, AMState.getArgs, amGet, PyTransformer.tid]

/-- C5: against the claim that `validate` on a `DictOf` spec returns false
when a required field key is absent, `Schema.validate` returns `True` on the
spec `{"id": str, "trust": int}` applied to `{"id": "x"}` (missing
`"trust"`): absent keys are added to `visited_keys` anyway, so the final
missing-key check never fires; `Schema.transform` on the same input raises
`missing required key`, witnessing the intended behaviour. -/
theorem claim_C5_validate_accepts_missing_required_key :
    svalidate (.sdict [("id", .typ .strT false), ("trust", .typ .intT false)] false)
        (.dict [("id", .str "x")]) = .ok true
      ∧ stransform amEmpty
          (.sdict [("id", .typ .strT false), ("trust", .typ .intT false)] false)
          (.dict [("id", .str "x")]) = .error .vte := by
  constructor
  · simp [svalidate, svalFields, lookupStr, typeCheckValid, pyIsInstance, typeOf]
  · simp [stransform, stransFields, lookupStr, typeCheckValid, pyIsInstance, typeOf]

/-- C6: against the claim that extra input keys make `validate` return false
and `transform` raise unless the allow-extra-keys flag is set, the code does
the opposite: on spec `{"a": 1}` and input `{"a": 1, "b": 2}`, `validate`
returns `True` (it never inspects data keys), `transform` without the flag
silently drops the extra key, and `transform` *with* `ignore_extra_keys=True`
raises (`required_keys` is enlarged by the data keys, so
`visited_keys < required_keys` fires). -/
theorem claim_C6_extra_keys_flag_inverted :
    svalidate (.sdict [("a", .const (.int 1))] false)
        (.dict [("a", .int 1), ("b", .int 2)]) = .ok true
      ∧ stransform amEmpty (.sdict [("a", .const (.int 1))] false)
          (.dict [("a", .int 1), ("b", .int 2)]) = .ok (.dict [("a", .int 1)])
      ∧ stransform amEmpty (.sdict [("a", .const (.int 1))] true)
          (.dict [("a", .int 1), ("b", .int 2)]) = .error .vte := by
  refine ⟨?_, ?_, ?_⟩
  · simp [svalidate, svalFields, lookupStr, pyEq]
  · simp [stransform, stransFields, lookupStr, pyEq]
  · simp [stransform, stransFields, lookupStr, pyEq]

/-- C8: against the claim that `Type(T, strict=True).transform(v)` returns
`v` exactly when the runtime type of `v` is exactly `T`, the strict check
compares `type(data) == type(self.validator)` — the *metaclass* `type` — so
it rejects `5` against `Type(int, strict=True)` (and `validate` returns
`False`), accepts any class object instead, while the non-strict check
behaves as documented. -/
theorem claim_C8_strict_compares_metaclass :
    stransform amEmpty (.typ .intT true) (.int 5) = .error .vte
      ∧ svalidate (.typ .intT true) (.int 5) = .ok false
      ∧ stransform amEmpty (.typ .intT false) (.int 5) = .ok (.int 5)
      ∧ stransform amEmpty (.typ .intT true) (.cls .strT) = .ok (.cls .strT) := by
  refine ⟨?_, ?_, ?_, ?_⟩ <;>
    simp [stransform, svalidate, typeCheckValid, pyIsInstance, typeOf]

/-- C1 counterexample: the claim "for every spec `s` and data `d`,
`validate(s, d) = true` implies `transform(s, d)` does not raise" fails at
the concrete spec `{"k": 3}` and data `{}`: `Schema.validate` returns `True`
(the missing-key check is dead code) while `Schema.transform` raises
`missing required key`. -/
theorem claim_C1_counterexample :
    svalidate (.sdict [("k", .const (.int 3))] false) (.dict []) = .ok true
      ∧ stransform amEmpty (.sdict [("k", .const (.int 3))] false) (.dict [])
          = .error .vte := by
  constructor
  · simp [svalidate, svalFields, lookupStr]
  · simp [stransform, stransFields, lookupStr]

/-- C7 counterexample: the claim that the unpack mode is determined by the
shape of `converted = inner.transform(data)` fails concretely: with an inner
`Fn` spec converting the integer `7` to the mapping `{"a": 1}`,
`As.transform` does *not* unpack the mapping as keyword arguments (which
the instrumented transformer would report as `"kwargs-unpacked"`); it
passes it as a single positional argument, because the mode is chosen by
`_priority(data)` on the original integer. -/
theorem claim_C7_counterexample :
    stransform amEmpty (.asv c7inner (.callable c7call) true) (.int 7)
        = .ok (.str "single-positional")
      ∧ ((.ok (.str "single-positional") : Except PyErr PyVal)
          ≠ .ok (.str "kwargs-unpacked")) := by
  constructor
  · simp [stransform, c7inner, c7call, AMState.hasType, amGet, amEmpty,
      PyTransformer.tid, asCallPhase, pyPriority, pyTruthy]
  · intro h
    simp only [Except.ok.injEq, PyVal.str.injEq] at h
    exact absurd h (by decide)

/-- C7 (amended): the unpack mode of `As.transform` is chosen by
`_priority(data)` on the *original* input, not by the shape of
`converted = inner.transform(data)`: when the original data is a plain
scalar (priority VALUE), a mapping-shaped `converted` is still passed to the
target as a single positional argument (after the initial `result = None`
falsy check), never keyword-unpacked. -/
theorem claim_C7_amended_mode_from_raw_data (am : AMState) (inner : SpecV)
    (c : PyCallable) (d conv : PyVal)
    (hinner : stransform am inner d = .ok conv)
    (hprio : pyPriority d = 1)
    (hreg : am.hasType c.cid = false)
    (_hconv : pyPriority conv = 5) :
    stransform am (.asv inner (.callable c) true) d =
      (match c.call [conv] [] with
       | .ok r => .ok r
       | .error _ => .error (.vte : PyErr)) := by
  simp only [stransform, hinner, PyTransformer.tid, hreg, Bool.false_eq_true, if_false,
    asCallPhase, hprio]
  simp [pyTruthy]

/-- C7 witness: the amended claim at the concrete inner spec `c7winner`
(which converts `7` to the mapping `{"w": 2}`) and transformer `c7wcall`. -/
theorem claim_C7_amended_witness :
    stransform amEmpty c7winner (.int 7) = .ok (.dict [("w", .int 2)])
      ∧ pyPriority (.int 7) = 1
      ∧ amEmpty.hasType c7wcall.cid = false
      ∧ pyPriority (.dict [("w", .int 2)]) = 5
      ∧ stransform amEmpty (.asv c7winner (.callable c7wcall) true) (.int 7) =
          (match c7wcall.call [(.dict [("w", .int 2)])] [] with
           | .ok r => .ok r
           | .error _ => .error (.vte : PyErr)) :=
  ⟨by simp [stransform, c7winner], rfl, rfl, rfl,
    claim_C7_amended_mode_from_raw_data amEmpty c7winner c7wcall (.int 7) _
      (by simp [stransform, c7winner]) rfl rfl rfl⟩

/-- C10: in `As.transform` with unpacking enabled and dict-shaped data, when
the keyword-unpacked constructor call succeeds but returns a falsy value,
the constructor is invoked a second time with the converted value as a
single positional argument and that second result is what `transform`
returns — the falsy first result is discarded. -/
theorem claim_C10_falsy_result_reinvokes (am : AMState) (inner : SpecV)
    (c : PyCallable) (d : PyVal) (kvs : List (String × PyVal)) (r1 r2 : PyVal)
    (hinner : stransform am inner d = .ok (.dict kvs))
    (hprio : pyPriority d = 5)
    (hreg : am.hasType c.cid = false)
    (hcall1 : c.call [] kvs = .ok r1)
    (hfalsy : pyTruthy r1 = false)
    (hcall2 : c.call [.dict kvs] [] = .ok r2) :
    stransform am (.asv inner (.callable c) true) d = .ok r2 := by
  simp only [stransform, hinner, PyTransformer.tid, hreg, Bool.false_eq_true, if_false,
    asCallPhase, hprio, pyCallKw, kwCollision, List.any_nil, List.any_eq_false]
  simp [hcall1, hfalsy, hcall2]

/-- C10 witness: with the transformer `c10call` (keyword call returns the
falsy `0`, positional call returns `"second"`), `As.transform` returns
`"second"`. -/
theorem claim_C10_witness :
    stransform amEmpty c10inner (.dict []) = .ok (.dict [("k", .int 3)])
      ∧ c10call.call [] [("k", .int 3)] = .ok (.int 0)
      ∧ pyTruthy (.int 0) = false
      ∧ stransform amEmpty (.asv c10inner (.callable c10call) true) (.dict [])
          = .ok (.str "second") :=
  ⟨by simp [stransform, c10inner], rfl, rfl,
    claim_C10_falsy_result_reinvokes amEmpty c10inner c10call (.dict [])
      [("k", .int 3)] (.int 0) (.str "second")
      (by simp [stransform, c10inner]) rfl rfl rfl rfl rfl⟩

/-! ## Supporting lemmas for the cursor claims -/

/-- With `limit = 0`, `pull_limit` is never positive, so `_next_page` returns
without fetching and without touching any state. -/
theorem cNextPage_limit_zero {ρ β : Type} (fe : Nat → Except Unit (CEnvelope ρ))
    (it : ρ → Except Unit β) (st : CState ρ β) (h : st.limit = some 0) :
    cNextPage fe it st = .ok st := by
  have hng : ¬ cPullLimit st > 0 := by
    simp [cPullLimit, h]
    split <;> omega
  simp [cNextPage, hng]

/-- With `limit = 0`, a run of `j` calls drains the buffer in order, signals
`IteratorEmpty` on every further call, and never changes any other field —
in particular `fetchIdx` stays fixed: no request is ever issued. -/
theorem cNextRun_limit_zero {ρ β : Type} (fe : Nat → Except Unit (CEnvelope ρ))
    (it : ρ → Except Unit β) :
    ∀ (j : Nat) (st : CState ρ β), st.limit = some 0 →
      cNextRun fe it j st
        = (st.queue.take j, j - st.queue.length, { st with queue := st.queue.drop j }) := by
  intro j
  induction j with
  | zero => intro st h; simp [cNextRun]
  | succ j ih =>
    intro st h
    obtain ⟨u, p, pp, lim, rc, q, fi⟩ := st
    simp only at h
    subst h
    cases q with
    | nil =>
        have hp := cNextPage_limit_zero fe it (⟨u, p, pp, some 0, rc, [], fi⟩ : CState ρ β) rfl
        simp [cNextRun, cNext, hp, ih]
    | cons b rest =>
        simp [cNextRun, cNext, ih]

/-- When every raw item of a page decodes, the put loop succeeds and its only
effect is appending the decoded items to the queue. -/
theorem cPutLoop_ok {ρ β : Type} (it : ρ → Except Unit β) :
    ∀ (l : List ρ) (st : CState ρ β), (∀ r ∈ l, (it r).isOk = true) →
      ∃ q', cPutLoop it st l = .ok { st with queue := st.queue ++ q' } := by
  intro l
  induction l with
  | nil => intro st _; exact ⟨[], by simp [cPutLoop]⟩
  | cons r rs ih =>
    intro st h
    have hr : (it r).isOk = true := h r (List.mem_cons_self r rs)
    obtain ⟨b, hb⟩ : ∃ b, it r = .ok b := by
      cases hit : it r with
      | ok b => exact ⟨b, rfl⟩
      | error e => rw [hit] at hr; simp [Except.isOk, Except.toBool] at hr
    obtain ⟨q'', hq⟩ := ih { st with queue := st.queue ++ [b] }
      (fun r' hr' => h r' (List.mem_cons_of_mem r hr'))
    refine ⟨b :: q'', ?_⟩
    simp only [cPutLoop, hb, hq]
    simp

/-- `_params` consumption either leaves the cursor untouched or only nulls
out `params`. -/
theorem mparamsStep_cases {α : Type} (st : MState α) :
    mparamsStep st = st ∨ mparamsStep st = { st with params := Option.none } := by
  unfold mparamsStep
  cases st.params with
  | none => exact Or.inl rfl
  | some l =>
      by_cases h : l.isEmpty
      · simp [h]
      · simp [h]

/-- Against a server whose every page is non-empty, truthy and linked with an
offset-carrying next URL, the fetch branch succeeds, yields the first item of
the new page, preserves the limit, and advances `_num_records` by one. -/
theorem mfetchCore_ok {α : Type} (serve : Nat → MEnvelope α) (truthy : α → Bool)
    (hres : ∀ k, (serve k).results ≠ [])
    (htr : ∀ k, ∀ a ∈ (serve k).results, truthy a = true)
    (hnx : ∀ k, ((serve k).nextL).isSome = true)
    (hoff : ∀ k u, (serve k).nextL = some u → (lookupQ "offset" u.query).isSome = true)
    (st0 : MState α) :
    ∃ a st', mfetchCore serve truthy st0 = .ok (a, st')
      ∧ st'.limit = st0.limit
      ∧ st'.numRecords = st0.numRecords + 1
      ∧ st'.nextL.isSome = true
      ∧ st'.current ≤ st'.data.length
      ∧ (∀ b ∈ st'.data, truthy b = true) := by
  obtain ⟨u, hu⟩ := Option.isSome_iff_exists.mp (hnx st0.fetchIdx)
  obtain ⟨off1, hoff1⟩ := Option.isSome_iff_exists.mp (hoff st0.fetchIdx u hu)
  have hlen : 0 < (serve st0.fetchIdx).results.length :=
    List.length_pos.mpr (hres st0.fetchIdx)
  have htd : truthy ((serve st0.fetchIdx).results.get ⟨0, hlen⟩) = true :=
    htr st0.fetchIdx _ (List.get_mem _ _ _)
  refine ⟨(serve st0.fetchIdx).results.get ⟨0, hlen⟩,
    { limit := st0.limit, numRecords := st0.numRecords + 1, current := 1,
      total := (serve st0.fetchIdx).count, nextL := some u,
      prevL := (serve st0.fetchIdx).prevL, data := (serve st0.fetchIdx).results,
      offset := off1, params := st0.params, fetchIdx := st0.fetchIdx + 1 },
    ?_, rfl, rfl, rfl, ?_, ?_⟩
  · simp only [mfetchCore, hu, hoff1, mcheck]
    simp only [hlen, dif_pos]
    have htd2 : truthy (serve st0.fetchIdx).results[0] = true := htd
    simp [htd2]
  · simpa using hlen
  · intro b hb
    exact htr st0.fetchIdx b hb

/-- One successful `next()` step of cursor B below the limit: yields an item
and advances `_num_records` by exactly one, whether it came from the buffer
or from a fresh fetch. -/
theorem mnext_step {α : Type} (serve : Nat → MEnvelope α) (truthy : α → Bool) (n : Nat)
    (hres : ∀ k, (serve k).results ≠ [])
    (htr : ∀ k, ∀ a ∈ (serve k).results, truthy a = true)
    (hnx : ∀ k, ((serve k).nextL).isSome = true)
    (hoff : ∀ k u, (serve k).nextL = some u → (lookupQ "offset" u.query).isSome = true)
    (st : MState α)
    (hlim : st.limit = n) (hnxs : st.nextL.isSome = true)
    (hall : ∀ a ∈ st.data, truthy a = true)
    (hlt : st.numRecords < n) :
    ∃ a st', mnext serve truthy st = .ok (a, st')
      ∧ st'.limit = n ∧ st'.nextL.isSome = true
      ∧ (∀ b ∈ st'.data, truthy b = true)
      ∧ st'.numRecords = st.numRecords + 1 := by
  obtain ⟨u, hu⟩ := Option.isSome_iff_exists.mp hnxs
  have hguard : ((st.nextL.isNone && decide (st.data.length ≤ st.current))
      || (st.limit != 0 && st.numRecords == st.limit)) = false := by
    simp [hu, hlim]
    omega
  by_cases hc : st.current < st.data.length
  · have ht : truthy (st.data.get ⟨st.current, hc⟩) = true := hall _ (List.get_mem _ _ _)
    refine ⟨st.data.get ⟨st.current, hc⟩,
      { st with current := st.current + 1, numRecords := st.numRecords + 1 },
      ?_, hlim, hnxs, hall, rfl⟩
    simp only [mnext, hguard, Bool.false_eq_true, if_false, mcheck]
    simp only [hc, dif_pos]
    have ht2 : truthy st.data[st.current] = true := ht
    simp [ht2]
  · obtain ⟨a, st', heq, hl, hn, hs, _hc', hd⟩ :=
      mfetchCore_ok serve truthy hres htr hnx hoff (mparamsStep st)
    have hfields : (mparamsStep st).limit = st.limit
        ∧ (mparamsStep st).numRecords = st.numRecords := by
      rcases mparamsStep_cases st with h0 | h0 <;> rw [h0] <;> exact ⟨rfl, rfl⟩
    refine ⟨a, st', ?_, ?_, hs, hd, ?_⟩
    · simp only [mnext, hguard, Bool.false_eq_true, if_false, mcheck]
      simp only [dif_neg hc]
      simpa [mfetch] using heq
    · rw [hl, hfields.1, hlim]
    · rw [hn, hfields.2]

/-- `j` successive `next()` calls of cursor B below the limit all succeed,
yield `j` items and advance `_num_records` by `j`. -/
theorem mnextN_run {α : Type} (serve : Nat → MEnvelope α) (truthy : α → Bool) (n : Nat)
    (hres : ∀ k, (serve k).results ≠ [])
    (htr : ∀ k, ∀ a ∈ (serve k).results, truthy a = true)
    (hnx : ∀ k, ((serve k).nextL).isSome = true)
    (hoff : ∀ k u, (serve k).nextL = some u → (lookupQ "offset" u.query).isSome = true) :
    ∀ (j : Nat) (st : MState α),
      st.limit = n → st.nextL.isSome = true → (∀ a ∈ st.data, truthy a = true) →
      st.numRecords + j ≤ n →
      ∃ l st', mnextN serve truthy j st = .ok (l, st') ∧ l.length = j
        ∧ st'.limit = n ∧ st'.nextL.isSome = true
        ∧ (∀ a ∈ st'.data, truthy a = true)
        ∧ st'.numRecords = st.numRecords + j := by
  intro j
  induction j with
  | zero =>
      intro st h1 h2 h3 _
      exact ⟨[], st, rfl, rfl, h1, h2, h3, rfl⟩
  | succ j ih =>
      intro st h1 h2 h3 h4
      obtain ⟨a, st', heq, hl, hn, hd, hnum⟩ :=
        mnext_step serve truthy n hres htr hnx hoff st h1 h2 h3 (by omega)
      obtain ⟨l, st'', heq2, hlen2, hl2, hn2, hd2, hnum2⟩ :=
        ih st' hl hn hd (by omega)
      refine ⟨a :: l, st'', ?_, by simp [hlen2], hl2, hn2, hd2, by omega⟩
      simp only [mnextN, heq, heq2]

/-- C2 counterexample: the claim that a cursor with total-item limit `n` over
a server holding more yields exactly `n` items and exhausts on call `n + 1`
fails for the `common.py` cursor: with `limit = 5`, page size 10 and twenty
server items, all six of the first six `next()` calls yield (the claim says
the sixth signals exhaustion), eleven calls yield the whole first page of
ten items (not five) with exhaustion only afterwards — the limit is
decremented by fetched-page size and only gates further fetching. -/
theorem claim_C2_counterexample :
    (cNextRun c2fe c2it 6 c2st).1.length = 6
      ∧ (cNextRun c2fe c2it 11 c2st).1 = [1, 2, 3, 4, 5, 6, 7, 8, 9, 10]
      ∧ (cNextRun c2fe c2it 11 c2st).2.1 = 1 :=
  ⟨by decide, by decide, by decide⟩

/-- C2 (amended): the `models/__init__.py` cursor's `next()` does enforce the
limit per item returned: over any server that always has another non-empty
page of truthy items (next links present and offset-carrying), a cursor
built with limit `n ≠ 0` yields exactly `n` items through `n` `next()`
calls, and the `(n+1)`-th call signals `IteratorEmpty` leaving the cursor
unchanged; the `common.py` cursor instead applies its limit at page
granularity (see the counterexample). -/
theorem claim_C2_amended_per_item_limit {α : Type} (serve : Nat → MEnvelope α)
    (truthy : α → Bool) (n : Nat) (url0 : MUrl) (p0 : Option (List (String × Int)))
    (hn : n ≠ 0)
    (hres : ∀ k, (serve k).results ≠ [])
    (htr : ∀ k, ∀ a ∈ (serve k).results, truthy a = true)
    (hnx : ∀ k, ((serve k).nextL).isSome = true)
    (hoff : ∀ k u, (serve k).nextL = some u → (lookupQ "offset" u.query).isSome = true) :
    ∃ l st', mnextN serve truthy n (mInit n url0 p0) = .ok (l, st')
      ∧ l.length = n
      ∧ mnext serve truthy st' = .error (.empty, st') := by
  obtain ⟨l, st', heq, hlen, hl, hnxs, _hd, hnum⟩ :=
    mnextN_run serve truthy n hres htr hnx hoff n (mInit n url0 p0) rfl rfl
      (by simp [mInit]) (by simp [mInit])
  refine ⟨l, st', heq, hlen, ?_⟩
  have hguard : ((st'.nextL.isNone && decide (st'.data.length ≤ st'.current))
      || (st'.limit != 0 && st'.numRecords == st'.limit)) = true := by
    have h1 : st'.numRecords = n := by simpa [mInit] using hnum
    simp [hl, h1, hn]
  simp [mnext, hguard]

/-- C2 witness: the amended claim at limit 5 over the concrete server
`w2serve` (pages of ten truthy items, twenty reported in total). -/
theorem claim_C2_amended_witness :
    ∃ l st', mnextN w2serve w2truthy 5 (mInit 5 ⟨[("offset", 0)]⟩ (some [])) = .ok (l, st')
      ∧ l.length = 5
      ∧ mnext w2serve w2truthy st' = .error (.empty, st') :=
by
  apply claim_C2_amended_per_item_limit w2serve w2truthy 5 ⟨[("offset", 0)]⟩ (some [])
  · decide
  · intro k; simp only [w2serve]; decide
  · intro k; simp only [w2serve]; decide
  · intro k; simp only [w2serve]; decide
  · intro k u h
    simp only [w2serve] at h
    injection h with h2
    subst h2
    decide

/-- C3 counterexample: the claim that a failed fetch *or decode* leaves the
cursor state exactly as before fails for the `common.py` cursor at a
concrete input: a page whose second item fails to decode leaves the cursor
with the next URL and params already adopted, the limit already zeroed by
the short-page rule, the first item already buffered, and the request
already consumed — not the prior state, and not safe to retry. -/
theorem claim_C3_counterexample :
    cNext c3fe c3it c3st = .error (.itemErr, c3stBad)
      ∧ c3stBad.queue ≠ c3st.queue
      ∧ c3stBad.limit ≠ c3st.limit
      ∧ c3stBad.url ≠ c3st.url :=
  ⟨rfl, by decide, by decide, by decide⟩

/-- C3 (amended): for the `common.py` cursor, if the HTTP request itself (or
the page-envelope decode, both of which precede any mutation) fails, the
failed `next()` call leaves every cursor field exactly as it was, so the
call is safe to retry; a *per-item* decode failure, by contrast, can leave
the cursor partially advanced (see the counterexample). -/
theorem claim_C3_amended_fetch_failure_preserves_state {ρ β : Type}
    (fe : Nat → Except Unit (CEnvelope ρ)) (it : ρ → Except Unit β)
    (st : CState ρ β)
    (hq : st.queue = []) (hpl : cPullLimit st > 0) (hfe : fe st.fetchIdx = .error ()) :
    cNext fe it st = .error (.fetchErr, st) := by
  simp [cNext, cNextPage, hq, hpl, hfe]

/-- C3 witness: the amended claim at the concrete cursor `w3st` whose fetch
always fails. -/
theorem claim_C3_amended_witness :
    w3st.queue = [] ∧ cPullLimit w3st > 0
      ∧ cNext w3fe w9it w3st = .error (.fetchErr, w3st) :=
  ⟨rfl, by decide,
    claim_C3_amended_fetch_failure_preserves_state w3fe w9it w3st rfl (by decide) rfl⟩

/-- C9: whenever `_next_page` fetches a page whose results length is
strictly below the configured page size, the `common.py` cursor treats the
page as terminal — even with a non-null next link: the fetch succeeds,
`limit` is forced to `0`, and from then on any number of `next()` calls
first drains the buffered page in order and afterwards only signals
`IteratorEmpty`, never issuing another request (`fetchIdx` never moves and
no state beyond the draining queue changes). -/
theorem claim_C9_short_page_is_terminal {ρ β : Type} (fe : Nat → Except Unit (CEnvelope ρ))
    (it : ρ → Except Unit β) (st : CState ρ β) (env : CEnvelope ρ) (u : MUrl)
    (hq : st.queue = [])
    (hpl : cPullLimit st > 0)
    (hfe : fe st.fetchIdx = .ok env)
    (hnx : env.nextL = some u)
    (hshort : (env.results.length : Int) < st.perPageLimit)
    (hitems : ∀ r ∈ env.results, (it r).isOk = true) :
    ∃ st1, cNextPage fe it st = .ok st1 ∧ st1.limit = some 0
      ∧ st1.fetchIdx = st.fetchIdx + 1
      ∧ ∀ j, cNextRun fe it j st1
          = (st1.queue.take j, j - st1.queue.length, { st1 with queue := st1.queue.drop j }) := by
  obtain ⟨su, sp, spp, slim, srecv, sq, sfi⟩ := st
  simp only at hq hpl hfe hshort
  subst hq
  obtain ⟨q', hq'⟩ := cPutLoop_ok it env.results
    (⟨u, u.query, spp, some 0, srecv, [], sfi + 1⟩ : CState ρ β) hitems
  simp only [List.nil_append] at hq'
  refine ⟨⟨u, u.query, spp, some 0, srecv, q', sfi + 1⟩, ?_, rfl, rfl, ?_⟩
  · simp only [cNextPage]
    rw [if_pos hpl]
    simp only [hfe, hnx]
    rw [if_pos hshort]
    exact hq'
  · intro j
    exact cNextRun_limit_zero fe it j _ rfl

/-- C9 witness: the short-page rule at the concrete three-item page `w9env`
(page size ten, next link non-null). -/
theorem claim_C9_witness :
    w9st.queue = [] ∧ cPullLimit w9st > 0 ∧ w9fe w9st.fetchIdx = .ok w9env
      ∧ w9env.nextL = some ⟨[("offset", 10)]⟩
      ∧ ((w9env.results.length : Int) < w9st.perPageLimit)
      ∧ ∃ st1, cNextPage w9fe w9it w9st = .ok st1 ∧ st1.limit = some 0
          ∧ st1.fetchIdx = w9st.fetchIdx + 1
          ∧ ∀ j, cNextRun w9fe w9it j st1
              = (st1.queue.take j, j - st1.queue.length, { st1 with queue := st1.queue.drop j }) :=
  ⟨rfl, by decide, rfl, rfl, by decide,
    claim_C9_short_page_is_terminal w9fe w9it w9st w9env ⟨[("offset", 10)]⟩
      rfl (by decide) rfl rfl (by decide) (fun r _ => by simp [w9it, Except.isOk, Except.toBool])⟩

/-! ## Supporting lemmas for the amended claim C1 -/

/-- A successful `Except` computation yields a value. -/
theorem exceptOk {ε α : Type} {x : Except ε α} (h : x.isOk = true) : ∃ a, x = .ok a := by
  cases x with
  | error e => simp [Except.isOk, Except.toBool] at h
  | ok a => exact ⟨a, rfl⟩

/-- Homogeneous list case of the same-shape guarantee, given it for the
element spec. -/
theorem c1_list_aux (am : AMState) (e : SpecV)
    (IH : ∀ d' am', shapeOK e d' = true → svalidate e d' = .ok true →
      (stransform am' e d').isOk = true) :
    ∀ (xs : List PyVal) (bs : List Bool), shapeOKList e xs = true →
      svalList e xs = .ok bs → bs.all id = true →
      (stransList am e xs).isOk = true := by
  intro xs
  induction xs with
  | nil => intro bs _ _ _; simp [stransList, Except.isOk, Except.toBool]
  | cons x xs ih =>
      intro bs hsh heq hall
      simp only [shapeOKList, Bool.and_eq_true] at hsh
      simp only [svalList] at heq
      cases h1 : svalidate e x with
      | error er => rw [h1] at heq; exact absurd heq (by simp)
      | ok b =>
          rw [h1] at heq
          cases h2 : svalList e xs with
          | error er => rw [h2] at heq; exact absurd heq (by simp)
          | ok bs' =>
              rw [h2] at heq
              simp only [Except.ok.injEq] at heq
              subst heq
              simp only [List.all_cons, Bool.and_eq_true, id] at hall
              obtain ⟨w, hw⟩ := exceptOk (IH x am hsh.1 (by rw [h1, hall.1]))
              obtain ⟨ys, hys⟩ := exceptOk (ih bs' hsh.2 h2 hall.2)
              simp [stransList, hw, hys, Except.isOk, Except.toBool]

/-- Heterogeneous (zipped) list case of the same-shape guarantee. -/
theorem c1_zip_aux (am : AMState) :
    ∀ (es : List SpecV) (xs : List PyVal) (bs : List Bool),
      (∀ e ∈ es, ∀ d' am', shapeOK e d' = true → svalidate e d' = .ok true →
        (stransform am' e d').isOk = true) →
      shapeOKZip es xs = true → svalZip es xs = .ok bs → bs.all id = true →
      (stransZip am es xs).isOk = true := by
  intro es
  induction es with
  | nil => intro xs bs _ _ _ _; simp [stransZip, Except.isOk, Except.toBool]
  | cons e es ih =>
      intro xs bs hIH hsh heq hall
      cases xs with
      | nil => simp [stransZip, Except.isOk, Except.toBool]
      | cons x xs =>
          simp only [shapeOKZip, Bool.and_eq_true] at hsh
          simp only [svalZip] at heq
          cases h1 : svalidate e x with
          | error er => rw [h1] at heq; exact absurd heq (by simp)
          | ok b =>
              rw [h1] at heq
              cases h2 : svalZip es xs with
              | error er => rw [h2] at heq; exact absurd heq (by simp)
              | ok bs' =>
                  rw [h2] at heq
                  simp only [Except.ok.injEq] at heq
                  subst heq
                  simp only [List.all_cons, Bool.and_eq_true, id] at hall
                  obtain ⟨w, hw⟩ := exceptOk
                    (hIH e (List.mem_cons_self _ _) x am hsh.1 (by rw [h1, hall.1]))
                  obtain ⟨ys, hys⟩ := exceptOk
                    (ih xs bs' (fun e' he' => hIH e' (List.mem_cons_of_mem _ he')) hsh.2 h2 hall.2)
                  simp [stransZip, hw, hys, Except.isOk, Except.toBool]

/-- Dict-fields case of the same-shape guarantee: with every spec key present
and validating, the transform loop cannot hit its missing-key raise. -/
theorem c1_fields_aux (am : AMState) :
    ∀ (fields : List (String × SpecV)) (kvs : List (String × PyVal)),
      (∀ p ∈ fields, ∀ d' am', shapeOK p.2 d' = true → svalidate p.2 d' = .ok true →
        (stransform am' p.2 d').isOk = true) →
      shapeOKFields fields kvs = true → svalFields fields kvs = .ok true →
      (stransFields am fields kvs).isOk = true := by
  intro fields
  induction fields with
  | nil => intro kvs _ _ _; simp [stransFields, Except.isOk, Except.toBool]
  | cons p rest ih =>
      obtain ⟨k, sv⟩ := p
      intro kvs hIH hsh hval
      simp only [shapeOKFields, Bool.and_eq_true] at hsh
      cases hl : lookupStr k kvs with
      | none => rw [hl] at hsh; exact absurd hsh.1 (by simp)
      | some v =>
          rw [hl] at hsh
          simp only [svalFields, hl] at hval
          cases h1 : svalidate sv v with
          | error er => rw [h1] at hval; exact absurd hval (by simp)
          | ok b =>
              rw [h1] at hval
              cases b with
              | false => simp at hval
              | true =>
                  obtain ⟨w, hw⟩ := exceptOk
                    (hIH (k, sv) (List.mem_cons_self _ _) v am hsh.1 h1)
                  obtain ⟨tail, htail⟩ := exceptOk
                    (ih kvs (fun p hp => hIH p (List.mem_cons_of_mem _ hp)) hsh.2 hval)
                  simp [stransFields, hl, hw, htail, Except.isOk, Except.toBool]

/-- Strong-induction core of the amended claim C1, bounded by spec size. -/
theorem c1_safe_aux :
    ∀ (N : Nat) (s : SpecV), sizeOf s ≤ N → ∀ (d : PyVal) (am : AMState),
      shapeOK s d = true → svalidate s d = .ok true → (stransform am s d).isOk = true := by
  intro N
  induction N with
  | zero =>
      intro s hs
      have : 0 < sizeOf s := by cases s <;> simp_arith
      omega
  | succ N ih =>
      intro s hsize d am hshape hval
      cases s with
      | ignore => simp [stransform, Except.isOk, Except.toBool]
      | const c =>
          simp only [svalidate, Except.ok.injEq] at hval
          simp [stransform, hval, Except.isOk, Except.toBool]
      | fnv f =>
          cases h1 : f d with
          | error e =>
              simp only [svalidate, h1] at hval
              exact absurd hval (by simp)
          | ok v => simp [stransform, h1, Except.isOk, Except.toBool]
      | typ t strict =>
          simp only [svalidate, Except.ok.injEq] at hval
          simp [stransform, hval, Except.isOk, Except.toBool]
      | maybe inner =>
          have hsz : sizeOf inner ≤ N := by
            simp only [SpecV.maybe.sizeOf_spec] at hsize
            omega
          cases d with
          | none => simp [stransform, Except.isOk, Except.toBool]
          | bool b =>
              simp only [shapeOK] at hshape
              simp only [svalidate] at hval
              simp only [stransform]
              exact ih inner hsz _ am hshape hval
          | int n =>
              simp only [shapeOK] at hshape
              simp only [svalidate] at hval
              simp only [stransform]
              exact ih inner hsz _ am hshape hval
          | str s =>
              simp only [shapeOK] at hshape
              simp only [svalidate] at hval
              simp only [stransform]
              exact ih inner hsz _ am hshape hval
          | list xs =>
              simp only [shapeOK] at hshape
              simp only [svalidate] at hval
              simp only [stransform]
              exact ih inner hsz _ am hshape hval
          | dict kvs =>
              simp only [shapeOK] at hshape
              simp only [svalidate] at hval
              simp only [stransform]
              exact ih inner hsz _ am hshape hval
          | cls t =>
              simp only [shapeOK] at hshape
              simp only [svalidate] at hval
              simp only [stransform]
              exact ih inner hsz _ am hshape hval
      | asv inner tf up => simp [shapeOK] at hshape
      | sdict fields ex =>
          cases d with
          | dict kvs =>
              simp only [shapeOK, Bool.and_eq_true] at hshape
              simp only [svalidate] at hval
              have hIH : ∀ p ∈ fields, ∀ d' am', shapeOK p.2 d' = true →
                  svalidate p.2 d' = .ok true → (stransform am' p.2 d').isOk = true := by
                intro p hp d' am'
                have hps : sizeOf p.2 ≤ N := by
                  have h1 := List.sizeOf_lt_of_mem hp
                  obtain ⟨k, sv⟩ := p
                  simp only [SpecV.sdict.sizeOf_spec] at hsize
                  simp only [Prod.mk.sizeOf_spec] at h1
                  show sizeOf sv ≤ N
                  omega
                exact ih p.2 hps d' am'
              obtain ⟨new, hnew⟩ := exceptOk (c1_fields_aux am fields kvs hIH hshape.1 hval)
              simp only [stransform, hnew]
              cases hex : ex with
              | false => simp [Except.isOk, Except.toBool]
              | true =>
                  have hall : kvs.all (fun kv => (fields.map Prod.fst).contains kv.1) = true := by
                    have h2 := hshape.2
                    rw [hex] at h2
                    simpa using h2
                  have hany : (kvs.any fun kv => !(fields.map Prod.fst).contains kv.1) = false := by
                    rw [List.any_eq_false]
                    intro kv hkv
                    have hc := List.all_eq_true.mp hall kv hkv
                    rw [hc]
                    decide
                  rw [hany]
                  simp [Except.isOk, Except.toBool]
          | none => simp [shapeOK] at hshape
          | bool b => simp [shapeOK] at hshape
          | int n => simp [shapeOK] at hshape
          | str s => simp [shapeOK] at hshape
          | list xs => simp [shapeOK] at hshape
          | cls t => simp [shapeOK] at hshape
      | siter es =>
          cases es with
          | nil =>
              cases d with
              | list xs =>
                  simp only [svalidate] at hval
                  cases h1 : svalZip [] xs with
                  | error er => rw [h1] at hval; exact absurd hval (by simp)
                  | ok bs =>
                      rw [h1] at hval
                      simp only [Except.ok.injEq] at hval
                      simp only [shapeOK] at hshape
                      obtain ⟨ys, hys⟩ := exceptOk
                        (c1_zip_aux am [] xs bs (by intro e he; cases he) hshape h1 hval)
                      simp [stransform, hys, Except.isOk, Except.toBool]
              | none => simp [shapeOK] at hshape
              | bool b => simp [shapeOK] at hshape
              | int n => simp [shapeOK] at hshape
              | str s => simp [shapeOK] at hshape
              | dict kvs => simp [shapeOK] at hshape
              | cls t => simp [shapeOK] at hshape
          | cons e tail =>
              cases tail with
              | nil =>
                  cases d with
                  | list xs =>
                      simp only [svalidate] at hval
                      cases h1 : svalList e xs with
                      | error er => rw [h1] at hval; exact absurd hval (by simp)
                      | ok bs =>
                          rw [h1] at hval
                          simp only [Except.ok.injEq] at hval
                          simp only [shapeOK] at hshape
                          have hsz : sizeOf e ≤ N := by
                            simp only [SpecV.siter.sizeOf_spec] at hsize
                            simp only [List.cons.sizeOf_spec, List.nil.sizeOf_spec] at hsize
                            omega
                          obtain ⟨ys, hys⟩ := exceptOk
                            (c1_list_aux am e (fun d' am' => ih e hsz d' am') xs bs hshape h1 hval)
                          simp [stransform, hys, Except.isOk, Except.toBool]
                  | none => simp [shapeOK] at hshape
                  | bool b => simp [shapeOK] at hshape
                  | int n => simp [shapeOK] at hshape
                  | str s => simp [shapeOK] at hshape
                  | dict kvs => simp [shapeOK] at hshape
                  | cls t => simp [shapeOK] at hshape
              | cons e2 tail2 =>
                  cases d with
                  | list xs =>
                      simp only [svalidate] at hval
                      cases h1 : svalZip (e :: e2 :: tail2) xs with
                      | error er => rw [h1] at hval; exact absurd hval (by simp)
                      | ok bs =>
                          rw [h1] at hval
                          simp only [Except.ok.injEq] at hval
                          simp only [shapeOK] at hshape
                          have hIH : ∀ e' ∈ (e :: e2 :: tail2), ∀ d' am',
                              shapeOK e' d' = true → svalidate e' d' = .ok true →
                              (stransform am' e' d').isOk = true := by
                            intro e' he' d' am'
                            have hsz : sizeOf e' ≤ N := by
                              have h2 := List.sizeOf_lt_of_mem he'
                              simp only [SpecV.siter.sizeOf_spec] at hsize
                              omega
                            exact ih e' hsz d' am'
                          obtain ⟨ys, hys⟩ := exceptOk
                            (c1_zip_aux am (e :: e2 :: tail2) xs bs hIH hshape h1 hval)
                          simp [stransform, hys, Except.isOk, Except.toBool]
                  | none => simp [shapeOK] at hshape
                  | bool b => simp [shapeOK] at hshape
                  | int n => simp [shapeOK] at hshape
                  | str s => simp [shapeOK] at hshape
                  | dict kvs => simp [shapeOK] at hshape
                  | cls t => simp [shapeOK] at hshape

/-- C1 (amended): the same-shape guarantee holds on the Convert-free safe
fragment: for every spec without `As` nodes, applied to data in which every
dict spec meets a dict containing all spec keys (no extras when
`ignore_extra_keys` is set) and every list spec meets a list,
`Schema.validate` returning `True` implies `Schema.transform` succeeds.  As
stated over all specs the claim is false: `validate` wrongly accepts dict
inputs with missing required keys that `transform` rejects (see the
counterexample), and an `As` node's constructor may raise on validated
input. -/
theorem claim_C1_amended_safe_fragment (s : SpecV) (d : PyVal) (am : AMState)
    (hshape : shapeOK s d = true) (hval : svalidate s d = .ok true) :
    (stransform am s d).isOk = true :=
  c1_safe_aux (sizeOf s) s (Nat.le_refl _) d am hshape hval

/-- C1 witness: the amended claim at the concrete spec `{"id": str}` and
data `{"id": "x"}`. -/
theorem claim_C1_amended_witness :
    shapeOK (.sdict [("id", .typ .strT false)] false) (.dict [("id", .str "x")]) = true
      ∧ svalidate (.sdict [("id", .typ .strT false)] false) (.dict [("id", .str "x")]) = .ok true
      ∧ (stransform amEmpty (.sdict [("id", .typ .strT false)] false)
          (.dict [("id", .str "x")])).isOk = true := by
  have hsh : shapeOK (.sdict [("id", .typ .strT false)] false) (.dict [("id", .str "x")]) = true := by
    simp [shapeOK, shapeOKFields, lookupStr]
  have hv : svalidate (.sdict [("id", .typ .strT false)] false) (.dict [("id", .str "x")]) = .ok true := by
    simp [svalidate, svalFields, lookupStr, typeCheckValid, pyIsInstance, typeOf]
  exact ⟨hsh, hv, claim_C1_amended_safe_fragment _ _ amEmpty hsh hv⟩
